import Mathlib

/-!
Verification of the MuSig key-aggregation module of secp256k1-zkp
(`src/modules/musig/keyagg_impl.h`), as a shallow embedding.

Byte strings are modelled as `List Nat` (each entry one byte), machine
integers as `Nat` with explicit reduction (`% 2 ^ 32` for SHA-256 words,
`% secpP` for field elements, `% secpN` for scalars).  The module's own
code is translated from the source; the external collaborators that the
source file only calls (the SHA-256 engine, the field/group arithmetic,
pubkey load/save) are modelled from the spec, as marked in the
corresponding doc comments.
-/

/-- Big-endian interpretation of a byte list as a natural number
(the byte order of `secp256k1_fe_set_b32` / `secp256k1_scalar_set_b32`). -/
def bytesToNatBE (l : List Nat) : Nat :=
  l.foldl (fun a b => a * 256 + b) 0

/-- Big-endian serialization of a natural number into `k` bytes
(the byte order of `secp256k1_fe_get_b32` / `secp256k1_scalar_get_b32`). -/
def natToBytesBE : Nat → Nat → List Nat
  | 0, _ => []
  | k + 1, x => natToBytesBE k (x / 256) ++ [x % 256]

/-! ### SHA-256

Modelled from the spec: the spec treats the hash primitive as an external
collaborator ("tagged fixed-IV hashing", SHA-256); the definitions below
implement FIPS 180-4 SHA-256 over byte lists, with 32-bit words as `Nat`
reduced `% 2 ^ 32`.  `sha256Core st base msg` runs the compression
function starting from internal state `st` after `base` bytes have
already been absorbed (so the length field of the padding counts
`base + msg.length` bytes), which is exactly the semantics of
`secp256k1_sha256_write`/`finalize` after initializing `s` and `bytes`
by hand as `secp256k1_musig_keyagglist_sha256` does. -/

/-- 32-bit right rotation. -/
def rotr32 (x n : Nat) : Nat :=
  ((x >>> n) ||| (x <<< (32 - n))) % 2 ^ 32

/-- SHA-256 round constants. -/
def sha256K : List Nat :=
  [1116352408, 1899447441, 3049323471, 3921009573, 961987163,
   1508970993, 2453635748, 2870763221, 3624381080, 310598401,
   607225278, 1426881987, 1925078388, 2162078206, 2614888103,
   3248222580, 3835390401, 4022224774, 264347078, 604807628,
   770255983, 1249150122, 1555081692, 1996064986, 2554220882,
   2821834349, 2952996808, 3210313671, 3336571891, 3584528711,
   113926993, 338241895, 666307205, 773529912, 1294757372,
   1396182291, 1695183700, 1986661051, 2177026350, 2456956037,
   2730485921, 2820302411, 3259730800, 3345764771, 3516065817,
   3600352804, 4094571909, 275423344, 430227734, 506948616,
   659060556, 883997877, 958139571, 1322822218, 1537002063,
   1747873779, 1955562222, 2024104815, 2227730452, 2361852424,
   2428436474, 2756734187, 3204031479, 3329325298]

/-- SHA-256 initial state. -/
def sha256IV : List Nat :=
  [1779033703, 3144134277, 1013904242, 2773480762, 1359893119,
   2600822924, 528734635, 1541459225]

def shaSmallSigma0 (x : Nat) : Nat :=
  rotr32 x 7 ^^^ rotr32 x 18 ^^^ (x >>> 3)

def shaSmallSigma1 (x : Nat) : Nat :=
  rotr32 x 17 ^^^ rotr32 x 19 ^^^ (x >>> 10)

def shaBigSigma0 (x : Nat) : Nat :=
  rotr32 x 2 ^^^ rotr32 x 13 ^^^ rotr32 x 22

def shaBigSigma1 (x : Nat) : Nat :=
  rotr32 x 6 ^^^ rotr32 x 11 ^^^ rotr32 x 25

/-- Message-schedule extension; the word list is kept most-recent-first. -/
def sha256ExtendRev : Nat → List Nat → List Nat
  | 0, ws => ws
  | k + 1, ws =>
      sha256ExtendRev k
        ((shaSmallSigma1 (ws.getD 1 0) + ws.getD 6 0 + shaSmallSigma0 (ws.getD 14 0) +
            ws.getD 15 0) % 2 ^ 32 :: ws)

/-- One SHA-256 round; the state is the 8-word list `[a,b,c,d,e,f,g,h]` and
`kw` is the sum of the round constant and the schedule word. -/
def sha256Round (st : List Nat) (kw : Nat) : List Nat :=
  match st with
  | [a, b, c, d, e, f, g, h] =>
      let t1 := (h + shaBigSigma1 e + ((e &&& f) ^^^ ((e ^^^ 0xffffffff) &&& g)) + kw) % 2 ^ 32
      let t2 := (shaBigSigma0 a + ((a &&& b) ^^^ (a &&& c) ^^^ (b &&& c))) % 2 ^ 32
      [(t1 + t2) % 2 ^ 32, a, b, c, (d + t1) % 2 ^ 32, e, f, g]
  | _ => st

/-- The SHA-256 compression function on one 16-word block. -/
def sha256Compress (st blockWords : List Nat) : List Nat :=
  let w := (sha256ExtendRev 48 blockWords.reverse).reverse
  let kws := (sha256K.zip w).map fun q => (q.1 + q.2) % 2 ^ 32
  let st' := kws.foldl sha256Round st
  (st.zip st').map fun q => (q.1 + q.2) % 2 ^ 32

/-- Group a byte list into big-endian 32-bit words (trailing bytes that do
not fill a word are dropped; the padding always makes the length a
multiple of 4). -/
def bytesToWords : List Nat → List Nat
  | b0 :: b1 :: b2 :: b3 :: rest =>
      (((b0 * 256 + b1) * 256 + b2) * 256 + b3) :: bytesToWords rest
  | _ => []

/-- Group a word list into 16-word blocks (a trailing partial block is
dropped; the padding always makes the length a multiple of 16). -/
def wordsToBlocks : List Nat → List (List Nat)
  | w0 :: w1 :: w2 :: w3 :: w4 :: w5 :: w6 :: w7 ::
    w8 :: w9 :: w10 :: w11 :: w12 :: w13 :: w14 :: w15 :: rest =>
      [w0, w1, w2, w3, w4, w5, w6, w7, w8, w9, w10, w11, w12, w13, w14, w15] ::
        wordsToBlocks rest
  | _ => []

/-- SHA-256 padding for a message of `total` bytes overall: `0x80`, zeros
up to 56 mod 64, then the bit length as 8 big-endian bytes. -/
def sha256PadSuffix (total : Nat) : List Nat :=
  128 :: List.replicate ((119 - total % 64) % 64) 0 ++ natToBytesBE 8 (8 * total)

/-- Run SHA-256 compression over `msg` starting from state `st`, where
`base` bytes (a multiple of 64) have already been absorbed into `st`. -/
def sha256Core (st : List Nat) (base : Nat) (msg : List Nat) : List Nat :=
  (wordsToBlocks (bytesToWords (msg ++ sha256PadSuffix (base + msg.length)))).foldl
    sha256Compress st

/-- Serialize the 8-word state to the 32-byte big-endian digest. -/
def stateToBytes (st : List Nat) : List Nat :=
  st.foldr (fun w acc => natToBytesBE 4 w ++ acc) []

/-- Plain SHA-256 of a byte list. -/
def sha256 (msg : List Nat) : List Nat :=
  stateToBytes (sha256Core sha256IV 0 msg)

/-- The plain tagged-hash definition from the spec:
`SHA256(SHA256(tag) || SHA256(tag) || message)`. -/
def sha256TaggedHash (tag msg : List Nat) : List Nat :=
  sha256 (sha256 tag ++ sha256 tag ++ msg)

/-! ### secp256k1 constants and the point codec -/

/-- The secp256k1 base field modulus `2 ^ 256 - 2 ^ 32 - 977`. -/
def secpP : Nat :=
  115792089237316195423570985008687907853269984665640564039457584007908834671663

/-- The secp256k1 group order (the scalar modulus). -/
def secpN : Nat :=
  115792089237316195423570985008687907852837564279074904382605163141518161494337

instance secpN_neZero : NeZero secpN :=
  ⟨by decide⟩

/-- `secp256k1_scalar_set_b32`: parse 32 big-endian bytes as a scalar,
reducing modulo the group order; the second component is the overflow
flag, set exactly when the raw value is at or above the group order.
Modelled from the spec: scalar arithmetic is an external collaborator
("tweak/scalar ≥ group order" detection). -/
def secp256k1_scalar_set_b32 (b : List Nat) : Nat × Bool :=
  (bytesToNatBE b % secpN, decide (secpN ≤ bytesToNatBE b))

/-- `secp256k1_point_save`: serialize an affine point as 32-byte big-endian
x followed by 32-byte big-endian y.  The source normalizes both field
elements first (`secp256k1_fe_normalize_var`), modelled by `% secpP`; the
point at infinity is excluded from the domain, mirroring the source's
`VERIFY_CHECK(!secp256k1_ge_is_infinity(ge))` assertion (an assertion,
not a recoverable error).  The `sizeof(secp256k1_ge_storage) == 64`
branch of the source is the backend-optimal representation of the same
data and is modelled from the spec by the same 64-byte x||y layout. -/
def secp256k1_point_save (x y : Nat) : List Nat :=
  natToBytesBE 32 (x % secpP) ++ natToBytesBE 32 (y % secpP)

/-- `secp256k1_point_load`: parse 64 bytes back into the affine
coordinates (32-byte big-endian x, then y), with no reduction and no
curve check, exactly as `secp256k1_fe_set_b32` does. -/
def secp256k1_point_load (d : List Nat) : Nat × Nat :=
  (bytesToNatBE (d.take 32), bytesToNatBE (d.drop 32))

/-- `secp256k1_pubkey_save`: store a loaded group element in a
`secp256k1_pubkey`.  Modelled from the spec: the full public key uses
"the collaborator's own convention"; the 64-byte storage form is the
same x||y layout as the point codec. -/
def secp256k1_pubkey_save (pt : Nat × Nat) : List Nat :=
  secp256k1_point_save pt.1 pt.2

/-- A 64-byte all-zero buffer: the value `memset(ptr, 0, 64)` leaves in
an output `secp256k1_pubkey` or `secp256k1_xonly_pubkey`. -/
def zeros64 : List Nat :=
  List.replicate 64 0

/-! ### The keyagg cache -/

/-- The 4-byte magic of an initialized keyagg cache
(`secp256k1_musig_keyagg_cache_magic`). -/
def keyaggCacheMagic : List Nat :=
  [0xf4, 0xad, 0xbb, 0xdf]

/-- `secp256k1_keyagg_cache_internal`: the parsed form of the 165-byte
cache: aggregate point coordinates, second-key x, key-list hash, internal
key parity and accumulated tweak. -/
structure CacheI where
  pkX : Nat
  pkY : Nat
  secondPkX : Nat
  pkHash : List Nat
  parity : Nat
  tweak : Nat
  deriving DecidableEq

/-- `secp256k1_keyagg_cache_load`: check the leading 4-byte magic, then
parse the point (bytes 4..67), the second-key x (68..99), the key hash
(100..131), the parity bit (byte 132, masked `& 1`) and the tweak scalar
(133..164).  Returns `none` exactly when the magic does not match
(`ARG_CHECK`). -/
def secp256k1_keyagg_cache_load (cache : List Nat) : Option CacheI :=
  if cache.take 4 = keyaggCacheMagic then
    some
      { pkX := (secp256k1_point_load ((cache.drop 4).take 64)).1
        pkY := (secp256k1_point_load ((cache.drop 4).take 64)).2
        secondPkX := bytesToNatBE ((cache.drop 68).take 32)
        pkHash := (cache.drop 100).take 32
        parity := cache.getD 132 0 % 2
        tweak := (secp256k1_scalar_set_b32 ((cache.drop 133).take 32)).1 }
  else none

/-- `secp256k1_keyagg_cache_save`: serialize the internal cache back to
the 165-byte layout: magic, point, second-key x, key hash, parity byte,
tweak scalar. -/
def secp256k1_keyagg_cache_save (c : CacheI) : List Nat :=
  keyaggCacheMagic ++ secp256k1_point_save c.pkX c.pkY ++
    natToBytesBE 32 c.secondPkX ++ c.pkHash ++ [c.parity] ++ natToBytesBE 32 c.tweak

/-- `secp256k1_extrakeys_ge_even_y`: if the point's y-coordinate is odd,
negate the point; the Boolean reports whether a negation happened.
Modelled from the spec: even-y canonicalization is an external
collaborator contract. -/
def secp256k1_extrakeys_ge_even_y (pt : Nat × Nat) : (Nat × Nat) × Bool :=
  if pt.2 % 2 = 1 then ((pt.1, (secpP - pt.2 % secpP) % secpP), true) else (pt, false)

/-! ### The two fixed tagged-hash midstates (from the source) -/

/-- `secp256k1_musig_keyagglist_sha256`: the SHA-256 state produced by
this initializer: the eight fixed midstate words from the source and the
byte counter set to 64. -/
def secp256k1_musig_keyagglist_sha256 : List Nat × Nat :=
  ([0xb399d5e0, 0xc8fff302, 0x6badac71, 0x07c5b7f1,
    0x9701e2ef, 0x2a72ecf8, 0x201a4c7b, 0xab148a38], 64)

/-- `secp256k1_musig_keyaggcoef_sha256`: the SHA-256 state produced by
this initializer: the eight fixed midstate words from the source and the
byte counter set to 64. -/
def secp256k1_musig_keyaggcoef_sha256 : List Nat × Nat :=
  ([0x6ef02c5a, 0x06a480de, 0x1f298665, 0x1d1134f2,
    0x56a0b063, 0x52da4147, 0xf280d9d4, 0x4484be15], 64)

/-- The ASCII bytes of the tag string "KeyAgg list". -/
def keyagglistTag : List Nat :=
  [75, 101, 121, 65, 103, 103, 32, 108, 105, 115, 116]

/-- The ASCII bytes of the tag string "KeyAgg coefficient". -/
def keyaggcoefTag : List Nat :=
  [75, 101, 121, 65, 103, 103, 32, 99, 111, 101, 102, 102, 105, 99, 105, 101, 110, 116]

/-- The SHA-256 digest of the tag "KeyAgg list" (verified against the
model in `keyagglist_midstate_core`). -/
def keyagglistTagHash : List Nat :=
  [72, 28, 151, 28, 60, 11, 70, 215, 240, 178, 117, 174, 89, 141, 78, 44,
   126, 215, 49, 156, 89, 74, 92, 110, 199, 158, 160, 212, 153, 2, 148, 240]

/-- The SHA-256 digest of the tag "KeyAgg coefficient" (verified against
the model in `keyaggcoef_midstate_core`). -/
def keyaggcoefTagHash : List Nat :=
  [191, 201, 4, 3, 77, 28, 136, 232, 200, 14, 34, 229, 61, 36, 86, 109,
   100, 130, 78, 214, 66, 114, 129, 192, 145, 0, 249, 77, 205, 82, 201, 129]

/-! ### The keyagg operations -/

/-- `secp256k1_musig_keyaggcoef_internal`: the key-aggregation
coefficient: the scalar 1 when `x` equals `second_pk_x`, else the
"KeyAgg coefficient" midstate hash of `pk_hash || x` parsed as a scalar
(reduced modulo the group order). -/
def secp256k1_musig_keyaggcoef_internal (pkHash : List Nat) (x secondPkX : Nat) : Nat :=
  if x = secondPkX then 1
  else
    (secp256k1_scalar_set_b32
      (stateToBytes
        (sha256Core secp256k1_musig_keyaggcoef_sha256.1 secp256k1_musig_keyaggcoef_sha256.2
          (pkHash ++ natToBytesBE 32 x)))).1

/-- `secp256k1_xonly_pubkey_load`: load the 64-byte x-only pubkey object
into a group element.  Modelled from the spec: deserialization of a key
is an external collaborator; it fails exactly for an invalid (all-zero)
pubkey object, and otherwise yields the stored coordinates. -/
def secp256k1_xonly_pubkey_load (pk : List Nat) : Option (Nat × Nat) :=
  if pk = zeros64 then none else some (secp256k1_point_load pk)

/-- `secp256k1_xonly_pubkey_serialize`: the 32-byte x-only serialization
(the x-coordinate).  Modelled from the spec; fails exactly when the
pubkey object is invalid (all-zero), as the load does. -/
def secp256k1_xonly_pubkey_serialize (pk : List Nat) : Option (List Nat) :=
  if pk = zeros64 then none else some (natToBytesBE 32 (secp256k1_point_load pk).1)

/-- `secp256k1_xonly_pubkey_save`: store a group element in an x-only
pubkey object (64-byte storage form).  Modelled from the spec. -/
def secp256k1_xonly_pubkey_save (pt : Nat × Nat) : List Nat :=
  secp256k1_point_save pt.1 pt.2

/-- The serialization loop of `secp256k1_musig_compute_pk_hash`:
serialize each key in order into the hash input, aborting at the first
key that fails to serialize. -/
def serializeAll : List (List Nat) → Option (List Nat)
  | [] => some []
  | pk :: pks =>
      match secp256k1_xonly_pubkey_serialize pk with
      | none => none
      | some ser =>
          match serializeAll pks with
          | none => none
          | some rest => some (ser ++ rest)

/-- `secp256k1_musig_compute_pk_hash`: serialize every key (failing if
any key is invalid) and hash the concatenation with the "KeyAgg list"
midstate. -/
def secp256k1_musig_compute_pk_hash (pks : List (List Nat)) : Option (List Nat) :=
  match serializeAll pks with
  | none => none
  | some sers =>
      some
        (stateToBytes
          (sha256Core secp256k1_musig_keyagglist_sha256.1 secp256k1_musig_keyagglist_sha256.2
            sers))

/-- The tail of `secp256k1_musig_pubkey_agg` after the second-key scan:
compute the key-list hash (failing if a key is invalid), run the
multi-scalar multiplication, save the cache (parity 0, tweak 0) and the
canonicalized aggregate key.  `msm` models the external
`secp256k1_ecmult_multi_var` collaborator computing
`sum keyaggcoef_i * P_i` from the key hash, the second-key x and the
keys; `none` stands for the point at infinity (asserted unreachable by
the source with `VERIFY_CHECK`, not an error: the call still succeeds,
the stored coordinates are then unspecified and modelled as `(0, 0)`). -/
def secp256k1_musig_pubkey_agg_finish
    (msm : List Nat → Nat → List (List Nat) → Option (Nat × Nat))
    (cache : List Nat) (pubkeys : List (List Nat)) (secondX : Nat) :
    Bool × List Nat × List Nat :=
  match secp256k1_musig_compute_pk_hash pubkeys with
  | none => (false, zeros64, cache)
  | some pkHash =>
      let pkp : Nat × Nat :=
        match msm pkHash secondX pubkeys with
        | some q => q
        | none => (0, 0)
      let cacheOut :=
        secp256k1_keyagg_cache_save
          { pkX := pkp.1, pkY := pkp.2, secondPkX := secondX,
            pkHash := pkHash, parity := 0, tweak := 0 }
      (true, secp256k1_xonly_pubkey_save (secp256k1_extrakeys_ge_even_y pkp).1, cacheOut)

/-- `secp256k1_musig_pubkey_agg`: fail on an empty key list
(`ARG_CHECK(n_pubkeys > 0)`); scan for the first key that differs by
byte comparison from `pubkeys[0]`, loading it for its x-coordinate
(failing if it is invalid) and using the sentinel 0 when every key
equals `pubkeys[0]`; then aggregate.  Arguments mirror the C in/out
parameters: the result is
`(return value, agg_pk out-argument, keyagg_cache out-argument)`; the
`agg_pk` out-argument is zeroed first and written only on success. -/
def secp256k1_musig_pubkey_agg
    (msm : List Nat → Nat → List (List Nat) → Option (Nat × Nat))
    (cache : List Nat) (pubkeys : List (List Nat)) :
    Bool × List Nat × List Nat :=
  match pubkeys with
  | [] => (false, zeros64, cache)
  | pk0 :: rest =>
      match rest.find? fun pk => pk != pk0 with
      | none => secp256k1_musig_pubkey_agg_finish msm cache (pk0 :: rest) 0
      | some pk =>
          match secp256k1_xonly_pubkey_load pk with
          | none => (false, zeros64, cache)
          | some pt => secp256k1_musig_pubkey_agg_finish msm cache (pk0 :: rest) pt.1

/-- `secp256k1_musig_pubkey_get`: zero the output, load the cache
(failing on a magic mismatch), and on success store the cached point in
the output pubkey.  The cache is never written; the second component of
the result is the cache out-argument, returned verbatim. -/
def secp256k1_musig_pubkey_get (cache : List Nat) : Bool × List Nat × List Nat :=
  match secp256k1_keyagg_cache_load cache with
  | none => (false, cache, zeros64)
  | some ci => (true, cache, secp256k1_pubkey_save (ci.pkX, ci.pkY))

/-- `secp256k1_musig_pubkey_tweak_add`.  `ecTweak` models the external
`secp256k1_eckey_pubkey_tweak_add` collaborator: it returns the point
plus `tweak * G`, and `none` exactly when that sum is the point at
infinity (the source then returns failure; the `VERIFY_CHECK` after the
call only restates this).  The result is
`(return value, keyagg_cache out-argument, output_pubkey out-argument)`;
the output pubkey is zeroed first and written only on success, and the
cache is written only by the final `secp256k1_keyagg_cache_save`. -/
def secp256k1_musig_pubkey_tweak_add
    (ecTweak : Nat × Nat → Nat → Option (Nat × Nat))
    (cache : List Nat) (tweak32 : List Nat) :
    Bool × List Nat × List Nat :=
  match secp256k1_keyagg_cache_load cache with
  | none => (false, cache, zeros64)
  | some ci =>
      let sv := secp256k1_scalar_set_b32 tweak32
      if sv.2 then (false, cache, zeros64)
      else
        let ey := secp256k1_extrakeys_ge_even_y (ci.pkX, ci.pkY)
        let parity1 := if ey.2 then (ci.parity + 1) % 2 else ci.parity
        let tweak1 := if ey.2 then (secpN - ci.tweak) % secpN else ci.tweak
        let tw := (tweak1 + sv.1) % secpN
        match ecTweak ey.1 sv.1 with
        | none => (false, cache, zeros64)
        | some pk2 =>
            (true,
              secp256k1_keyagg_cache_save
                { pkX := pk2.1, pkY := pk2.2, secondPkX := ci.secondPkX,
                  pkHash := ci.pkHash, parity := parity1, tweak := tw },
              secp256k1_pubkey_save pk2)

/-- The 32-byte `second_pk_x` field of a serialized cache (bytes 68..99). -/
def cacheSecondBytes (c : List Nat) : List Nat :=
  (c.drop 68).take 32

/-- Membership of `(x, y)` on the secp256k1 curve `y ^ 2 = x ^ 3 + 7`
over the base field, at the level of raw normalized coordinates. -/
def onCurve (x y : Nat) : Prop :=
  x < secpP ∧ y < secpP ∧ y * y % secpP = (x * x % secpP * x + 7) % secpP

/-! ### The internal-state model of the cache for the tweak algebra

The group engine is an external collaborator (spec section 6): the model
below is parametric in any additive commutative group of points, the
generator, and the collaborator's y-parity test; the cache state is the
parsed `secp256k1_keyagg_cache_internal` with the aggregate point kept
as a group element, the internal key parity bit, and the accumulated
tweak scalar (an element of `ZMod secpN`, matching the scalar engine's
arithmetic modulo the group order). -/

/-- The internal cache state over an abstract point group: aggregate
point, internal key parity, accumulated tweak scalar. -/
structure KeyaggStateI (Point : Type) where
  pk : Point
  parity : Bool
  tweak : ZMod secpN
  deriving DecidableEq

/-- `secp256k1_musig_pubkey_tweak_add` on the internal cache state (the
byte (de)serialization stripped away): flip parity / negate point and
accumulated tweak if the cached point has odd y, accumulate the tweak
scalar, add `tweak * G` to the point, and fail (returning `none`, the
cache unchanged) exactly when the sum is the point at infinity. -/
def tweakAddI {Point : Type} [AddCommGroup Point] [DecidableEq Point]
    (G : Point) (isOddY : Point → Bool)
    (st : KeyaggStateI Point) (t : ZMod secpN) : Option (KeyaggStateI Point) :=
  let st1 :=
    if isOddY st.pk then
      { pk := -st.pk, parity := !st.parity, tweak := -st.tweak }
    else st
  let tw := st1.tweak + t
  let pk2 := st1.pk + t.val • G
  if pk2 = 0 then none else some { pk := pk2, parity := st1.parity, tweak := tw }

/-- A finite sequence of successful `tweak_add` calls on the internal
cache state; `none` if any call in the sequence fails. -/
def tweakChainI {Point : Type} [AddCommGroup Point] [DecidableEq Point]
    (G : Point) (isOddY : Point → Bool) :
    KeyaggStateI Point → List (ZMod secpN) → Option (KeyaggStateI Point)
  | st, [] => some st
  | st, t :: ts =>
      match tweakAddI G isOddY st t with
      | none => none
      | some st' => tweakChainI G isOddY st' ts

/-- `secp256k1_musig_pubkey_get` on the internal cache state: a pure
read of the cached aggregate point. -/
def pubkeyGetI {Point : Type} (st : KeyaggStateI Point) : Point :=
  st.pk

/-- The aggregate key recorded by `secp256k1_musig_pubkey_agg` in the
cache as the internal-state model sees it: the freshly aggregated point
with parity 0 and accumulated tweak 0. -/
def aggStateI {Point : Type} (P0 : Point) : KeyaggStateI Point :=
  { pk := P0, parity := false, tweak := 0 }

/-! ### Theorems -/

theorem bytesToNatBE_append_singleton (l : List Nat) (b : Nat) :
    bytesToNatBE (l ++ [b]) = bytesToNatBE l * 256 + b := by
  simp [bytesToNatBE, List.foldl_append]

theorem length_natToBytesBE (k x : Nat) : (natToBytesBE k x).length = k := by
  induction k generalizing x with
  | zero => simp [natToBytesBE]
  | succ k ih => simp [natToBytesBE, ih]

theorem bytesToNatBE_natToBytesBE (k x : Nat) :
    bytesToNatBE (natToBytesBE k x) = x % 256 ^ k := by
  induction k generalizing x with
  | zero => simp [natToBytesBE, bytesToNatBE, Nat.mod_one]
  | succ k ih =>
    rw [natToBytesBE, bytesToNatBE_append_singleton, ih]
    rw [pow_succ, Nat.mul_comm (256 ^ k) 256, Nat.mod_mul]
    ring

theorem mem_natToBytesBE_lt (k x : Nat) : ∀ b ∈ natToBytesBE k x, b < 256 := by
  induction k generalizing x with
  | zero => simp [natToBytesBE]
  | succ k ih =>
    intro b hb
    rw [natToBytesBE] at hb
    rcases List.mem_append.mp hb with h | h
    · exact ih _ _ h
    · simp only [List.mem_singleton] at h
      subst h
      exact Nat.mod_lt _ (by norm_num)

theorem bytesToNatBE_lt (l : List Nat) (h : ∀ b ∈ l, b < 256) :
    bytesToNatBE l < 256 ^ l.length := by
  induction l using List.reverseRecOn with
  | nil => simp [bytesToNatBE]
  | append_singleton l b ih =>
    rw [bytesToNatBE_append_singleton]
    have hb : b < 256 := h b (by simp)
    have hl : bytesToNatBE l < 256 ^ l.length := ih fun c hc => h c (by simp [hc])
    calc bytesToNatBE l * 256 + b < (bytesToNatBE l + 1) * 256 := by omega
    _ ≤ 256 ^ l.length * 256 := by
        exact Nat.mul_le_mul_right 256 (by omega)
    _ = 256 ^ (l ++ [b]).length := by
        simp [pow_succ]

theorem secpP_lt_pow : secpP < 256 ^ 32 := by
  decide

/-- C9: For every finite group point, deserializing the serialization
round-trips exactly: `secp256k1_point_load` applied to the output of
`secp256k1_point_save` on normalized affine coordinates yields the same
coordinates.  The point at infinity is excluded from the domain of
`secp256k1_point_save` itself, mirroring the source's `VERIFY_CHECK`
assertion (serializing infinity is not a recoverable error path). -/
theorem point_save_load_roundtrip (x y : Nat) (hx : x < secpP) (hy : y < secpP) :
    secp256k1_point_load (secp256k1_point_save x y) = (x, y) := by
  have hlx : (natToBytesBE 32 (x % secpP)).length = 32 := length_natToBytesBE _ _
  have hxm : x % secpP = x := Nat.mod_eq_of_lt hx
  have hym : y % secpP = y := Nat.mod_eq_of_lt hy
  unfold secp256k1_point_load secp256k1_point_save
  rw [List.take_left' hlx, List.drop_left' hlx]
  rw [bytesToNatBE_natToBytesBE, bytesToNatBE_natToBytesBE, hxm, hym]
  rw [Nat.mod_eq_of_lt (lt_trans hx secpP_lt_pow), Nat.mod_eq_of_lt (lt_trans hy secpP_lt_pow)]

/-- C9 witness: the round-trip at the secp256k1 generator coordinates. -/
theorem point_save_load_roundtrip_witness :
    secp256k1_point_load
      (secp256k1_point_save
        55066263022277343669578718895168534326250603453777594175500187360389116729240
        32670510020758816978083085130507043184471273380659243275938904335757337482424) =
      (55066263022277343669578718895168534326250603453777594175500187360389116729240,
       32670510020758816978083085130507043184471273380659243275938904335757337482424) :=
  point_save_load_roundtrip _ _ (by decide) (by decide)

/-- C1: whenever `secp256k1_musig_pubkey_tweak_add` returns failure (for
any of its three failure conditions: cache magic mismatch, tweak at or
above the group order, or the tweaked point being infinity as reported
by the group engine), the cache out-argument equals the cache that was
passed in: the function writes the cache only through the final
`secp256k1_keyagg_cache_save` on the success path. -/
theorem tweak_add_fail_cache_unchanged
    (ecTweak : Nat × Nat → Nat → Option (Nat × Nat))
    (cache tweak32 : List Nat)
    (h : (secp256k1_musig_pubkey_tweak_add ecTweak cache tweak32).1 = false) :
    (secp256k1_musig_pubkey_tweak_add ecTweak cache tweak32).2.1 = cache := by
  unfold secp256k1_musig_pubkey_tweak_add at h ⊢
  rcases hload : secp256k1_keyagg_cache_load cache with _ | ci
  · rfl
  · rw [hload] at h
    dsimp only at h ⊢
    by_cases hov : (secp256k1_scalar_set_b32 tweak32).2 = true
    · rw [if_pos hov]
    · rw [if_neg hov] at h ⊢
      split
      · rfl
      · next pk2 heq => rw [heq] at h; exact absurd h (by simp)

/-- C1 witness: a failing call (tweak at the group order, magic valid)
leaves the 165 cache bytes unchanged. -/
theorem tweak_add_fail_cache_unchanged_witness :
    (secp256k1_musig_pubkey_tweak_add (fun _ _ => none)
        (keyaggCacheMagic ++ List.replicate 161 0)
        (natToBytesBE 32 secpN)).2.1 =
      keyaggCacheMagic ++ List.replicate 161 0 :=
  tweak_add_fail_cache_unchanged _ _ _ (by decide)

/-- C7: with a cache whose magic matches (i.e. that loads successfully),
`secp256k1_musig_pubkey_tweak_add` fails exactly when the tweak parsed
as a big-endian integer is at or above the group order, or the group
engine reports that adding `tweak * G` to the (even-y canonicalized)
cached point gives the point at infinity; the latter is an ordinary
`return 0`, not an assertion. -/
theorem tweak_add_fail_iff
    (ecTweak : Nat × Nat → Nat → Option (Nat × Nat))
    (cache tweak32 : List Nat) (ci : CacheI)
    (hload : secp256k1_keyagg_cache_load cache = some ci) :
    (secp256k1_musig_pubkey_tweak_add ecTweak cache tweak32).1 = false ↔
      (secpN ≤ bytesToNatBE tweak32 ∨
        ecTweak (secp256k1_extrakeys_ge_even_y (ci.pkX, ci.pkY)).1
          (bytesToNatBE tweak32 % secpN) = none) := by
  unfold secp256k1_musig_pubkey_tweak_add
  rw [hload]
  dsimp only
  by_cases hov : secpN ≤ bytesToNatBE tweak32
  · rw [if_pos (by simp [secp256k1_scalar_set_b32, hov])]
    simp [hov]
  · rw [if_neg (by simp [secp256k1_scalar_set_b32, hov])]
    have hsv1 : (secp256k1_scalar_set_b32 tweak32).1 = bytesToNatBE tweak32 % secpN := rfl
    rw [hsv1]
    cases hec : ecTweak (secp256k1_extrakeys_ge_even_y (ci.pkX, ci.pkY)).1
        (bytesToNatBE tweak32 % secpN) with
    | none => simp [hov, hec]
    | some pk2 => simp [hov, hec]

/-- C7 witness: with a valid magic, an overflowing tweak (the group
order itself) makes the call fail, and with tweak 1 and a group engine
returning a point, it succeeds. -/
theorem tweak_add_fail_iff_witness :
    ((secp256k1_musig_pubkey_tweak_add (fun _ _ => none)
        (keyaggCacheMagic ++ List.replicate 161 0)
        (natToBytesBE 32 secpN)).1 = false ↔
      (secpN ≤ bytesToNatBE (natToBytesBE 32 secpN) ∨
        (fun (_ : Nat × Nat) (_ : Nat) => (none : Option (Nat × Nat)))
          (secp256k1_extrakeys_ge_even_y (0, 0)).1
          (bytesToNatBE (natToBytesBE 32 secpN) % secpN) = none)) :=
  tweak_add_fail_iff (fun _ _ => none) _ _ ⟨0, 0, 0, List.replicate 32 0, 0, 0⟩ (by decide)

/-- C8: `secp256k1_musig_pubkey_get` returns the cache out-argument
verbatim (the function never writes the cache); it succeeds exactly when
the leading 4 bytes are the cache magic; and on success the output
pubkey is the save of exactly the point currently stored in the cache
(bytes 4..67), with no canonicalization. -/
theorem pubkey_get_spec (cache : List Nat) :
    (secp256k1_musig_pubkey_get cache).2.1 = cache ∧
    ((secp256k1_musig_pubkey_get cache).1 = true ↔ cache.take 4 = keyaggCacheMagic) ∧
    ((secp256k1_musig_pubkey_get cache).1 = true →
      (secp256k1_musig_pubkey_get cache).2.2 =
        secp256k1_pubkey_save (secp256k1_point_load ((cache.drop 4).take 64))) := by
  unfold secp256k1_musig_pubkey_get secp256k1_keyagg_cache_load
  by_cases hm : cache.take 4 = keyaggCacheMagic
  · rw [if_pos hm]
    exact ⟨rfl, by simp [hm], fun _ => rfl⟩
  · rw [if_neg hm]
    exact ⟨rfl, by simp [hm], fun h => by simp at h⟩

/-- C8 witness: on a concrete magic-valid cache, the cache out-argument
is unchanged, the call succeeds, and the output is the saved cached
point. -/
theorem pubkey_get_spec_witness :
    (secp256k1_musig_pubkey_get (keyaggCacheMagic ++ List.replicate 161 0)).2.1 =
        keyaggCacheMagic ++ List.replicate 161 0 ∧
      (secp256k1_musig_pubkey_get (keyaggCacheMagic ++ List.replicate 161 0)).1 = true ∧
      (secp256k1_musig_pubkey_get (keyaggCacheMagic ++ List.replicate 161 0)).2.2 =
        secp256k1_pubkey_save
          (secp256k1_point_load
            ((((keyaggCacheMagic ++ List.replicate 161 0)).drop 4).take 64)) :=
  ⟨(pubkey_get_spec _).1,
   (pubkey_get_spec _).2.1.mpr (by decide),
   (pubkey_get_spec _).2.2 ((pubkey_get_spec _).2.1.mpr (by decide))⟩

theorem agg_finish_fail_out_zero
    (msm : List Nat → Nat → List (List Nat) → Option (Nat × Nat))
    (cache : List Nat) (pks : List (List Nat)) (secondX : Nat)
    (h : (secp256k1_musig_pubkey_agg_finish msm cache pks secondX).1 = false) :
    (secp256k1_musig_pubkey_agg_finish msm cache pks secondX).2.1 = zeros64 := by
  unfold secp256k1_musig_pubkey_agg_finish at h ⊢
  split
  · rfl
  · next pkHash heq => rw [heq] at h; exact absurd h (by simp)

theorem agg_fail_out_zero
    (msm : List Nat → Nat → List (List Nat) → Option (Nat × Nat))
    (cache : List Nat) (pubkeys : List (List Nat))
    (h : (secp256k1_musig_pubkey_agg msm cache pubkeys).1 = false) :
    (secp256k1_musig_pubkey_agg msm cache pubkeys).2.1 = zeros64 := by
  unfold secp256k1_musig_pubkey_agg at h ⊢
  rcases pubkeys with _ | ⟨pk0, rest⟩
  · rfl
  · dsimp only at h ⊢
    split
    · next heq =>
      rw [heq] at h
      dsimp only at h
      exact agg_finish_fail_out_zero _ _ _ _ h
    · next pk heq =>
      rw [heq] at h
      dsimp only at h
      split
      · rfl
      · next pt heq2 =>
        rw [heq2] at h
        dsimp only at h
        exact agg_finish_fail_out_zero _ _ _ _ h

theorem get_fail_out_zero (cache : List Nat)
    (h : (secp256k1_musig_pubkey_get cache).1 = false) :
    (secp256k1_musig_pubkey_get cache).2.2 = zeros64 := by
  unfold secp256k1_musig_pubkey_get at h ⊢
  split
  · rfl
  · next ci heq => rw [heq] at h; exact absurd h (by simp)

theorem tweak_fail_out_zero
    (ecTweak : Nat × Nat → Nat → Option (Nat × Nat))
    (cache tweak32 : List Nat)
    (h : (secp256k1_musig_pubkey_tweak_add ecTweak cache tweak32).1 = false) :
    (secp256k1_musig_pubkey_tweak_add ecTweak cache tweak32).2.2 = zeros64 := by
  unfold secp256k1_musig_pubkey_tweak_add at h ⊢
  rcases hload : secp256k1_keyagg_cache_load cache with _ | ci
  · rfl
  · rw [hload] at h
    dsimp only at h ⊢
    by_cases hov : (secp256k1_scalar_set_b32 tweak32).2 = true
    · rw [if_pos hov]
    · rw [if_neg hov] at h ⊢
      split
      · rfl
      · next pk2 heq => rw [heq] at h; exact absurd h (by simp)

/-- C10: `secp256k1_musig_pubkey_agg`, `secp256k1_musig_pubkey_get` and
`secp256k1_musig_pubkey_tweak_add` zero their output public-key argument
before any other work, so on every failure path the output argument
holds the all-zero 64-byte pattern. -/
theorem out_pubkey_zeroed_on_failure
    (msm : List Nat → Nat → List (List Nat) → Option (Nat × Nat))
    (ecTweak : Nat × Nat → Nat → Option (Nat × Nat))
    (cacheA cacheG cacheT : List Nat)
    (pubkeys : List (List Nat)) (tweak32 : List Nat)
    (hA : (secp256k1_musig_pubkey_agg msm cacheA pubkeys).1 = false)
    (hG : (secp256k1_musig_pubkey_get cacheG).1 = false)
    (hT : (secp256k1_musig_pubkey_tweak_add ecTweak cacheT tweak32).1 = false) :
    (secp256k1_musig_pubkey_agg msm cacheA pubkeys).2.1 = zeros64 ∧
      (secp256k1_musig_pubkey_get cacheG).2.2 = zeros64 ∧
      (secp256k1_musig_pubkey_tweak_add ecTweak cacheT tweak32).2.2 = zeros64 :=
  ⟨agg_fail_out_zero _ _ _ hA, get_fail_out_zero _ hG, tweak_fail_out_zero _ _ _ hT⟩

theorem xonly_serialize_eq_none_iff (pk : List Nat) :
    secp256k1_xonly_pubkey_serialize pk = none ↔ pk = zeros64 := by
  unfold secp256k1_xonly_pubkey_serialize
  by_cases h : pk = zeros64 <;> simp [h]

theorem xonly_load_eq_none_iff (pk : List Nat) :
    secp256k1_xonly_pubkey_load pk = none ↔ pk = zeros64 := by
  unfold secp256k1_xonly_pubkey_load
  by_cases h : pk = zeros64 <;> simp [h]

theorem serializeAll_isSome_iff (l : List (List Nat)) :
    (serializeAll l).isSome = true ↔ ∀ pk ∈ l, pk ≠ zeros64 := by
  induction l with
  | nil => simp [serializeAll]
  | cons a l ih =>
    unfold serializeAll
    by_cases ha : a = zeros64
    · have : secp256k1_xonly_pubkey_serialize a = none := (xonly_serialize_eq_none_iff a).mpr ha
      rw [this]
      simp [ha]
    · have : secp256k1_xonly_pubkey_serialize a =
          some (natToBytesBE 32 (secp256k1_point_load a).1) := by
        unfold secp256k1_xonly_pubkey_serialize
        rw [if_neg ha]
      rw [this]
      cases hm : serializeAll l with
      | none =>
        rw [hm] at ih
        simp only [Option.isSome_none, Bool.false_eq_true, false_iff] at ih ⊢
        intro hall
        exact ih fun pk hpk => hall pk (List.mem_cons_of_mem a hpk)
      | some r =>
        rw [hm] at ih
        simp only [Option.isSome_some, true_iff] at ih
        simp only [Option.isSome_some, true_iff]
        intro pk hpk
        rcases List.mem_cons.mp hpk with rfl | hpk
        · exact ha
        · exact ih pk hpk

theorem agg_finish_ret_iff
    (msm : List Nat → Nat → List (List Nat) → Option (Nat × Nat))
    (cache : List Nat) (pks : List (List Nat)) (secondX : Nat) :
    (secp256k1_musig_pubkey_agg_finish msm cache pks secondX).1 = true ↔
      (serializeAll pks).isSome = true := by
  unfold secp256k1_musig_pubkey_agg_finish secp256k1_musig_compute_pk_hash
  cases hser : serializeAll pks <;> simp [hser]

/-- C5: with the key-list pointer present (the list as given) a call of
`secp256k1_musig_pubkey_agg` succeeds exactly when the list is nonempty
and every key deserializes (no key is the invalid all-zero object): a
zero key count always fails, and the aggregate point being infinity is
never a returned error (the `msm` collaborator result, including
infinity `none`, does not occur in the condition). -/
theorem pubkey_agg_ret_iff
    (msm : List Nat → Nat → List (List Nat) → Option (Nat × Nat))
    (cache : List Nat) (pubkeys : List (List Nat)) :
    (secp256k1_musig_pubkey_agg msm cache pubkeys).1 = true ↔
      (pubkeys ≠ [] ∧ ∀ pk ∈ pubkeys, pk ≠ zeros64) := by
  rcases pubkeys with _ | ⟨pk0, rest⟩
  · simp [secp256k1_musig_pubkey_agg]
  · unfold secp256k1_musig_pubkey_agg
    dsimp only
    split
    · rw [agg_finish_ret_iff, serializeAll_isSome_iff]
      simp
    · next pk heq =>
      have hmem : pk ∈ rest := List.mem_of_find?_eq_some heq
      by_cases hpk : pk = zeros64
      · have : secp256k1_xonly_pubkey_load pk = none := (xonly_load_eq_none_iff pk).mpr hpk
        rw [this]
        simp only [Bool.false_eq_true, false_iff, not_and]
        intro _ hall
        exact absurd hpk (hall pk (List.mem_cons_of_mem pk0 hmem))
      · have : secp256k1_xonly_pubkey_load pk = some (secp256k1_point_load pk) := by
          unfold secp256k1_xonly_pubkey_load
          rw [if_neg hpk]
        rw [this]
        dsimp only
        rw [agg_finish_ret_iff, serializeAll_isSome_iff]
        simp

theorem cacheSecondBytes_save (c : CacheI) :
    cacheSecondBytes (secp256k1_keyagg_cache_save c) = natToBytesBE 32 c.secondPkX := by
  have h68 : (keyaggCacheMagic ++ secp256k1_point_save c.pkX c.pkY).length = 68 := by
    unfold secp256k1_point_save keyaggCacheMagic
    simp [length_natToBytesBE]
  have hre : secp256k1_keyagg_cache_save c =
      (keyaggCacheMagic ++ secp256k1_point_save c.pkX c.pkY) ++
        (natToBytesBE 32 c.secondPkX ++
          (c.pkHash ++ ([c.parity] ++ natToBytesBE 32 c.tweak))) := by
    unfold secp256k1_keyagg_cache_save
    simp [List.append_assoc]
  unfold cacheSecondBytes
  rw [hre, List.drop_left' h68, List.take_left' (length_natToBytesBE 32 c.secondPkX)]

theorem agg_finish_second_slice
    (msm : List Nat → Nat → List (List Nat) → Option (Nat × Nat))
    (cache : List Nat) (pks : List (List Nat)) (secondX : Nat) (ser : List Nat)
    (hser : serializeAll pks = some ser) (hs : secondX < 256 ^ 32) :
    bytesToNatBE
        (cacheSecondBytes (secp256k1_musig_pubkey_agg_finish msm cache pks secondX).2.2) =
      secondX := by
  unfold secp256k1_musig_pubkey_agg_finish secp256k1_musig_compute_pk_hash
  rw [hser]
  dsimp only
  rw [cacheSecondBytes_save, bytesToNatBE_natToBytesBE]
  exact Nat.mod_eq_of_lt hs

/-- C4: on any successful aggregation (all keys valid byte buffers), the
`second_pk_x` field written to the cache is the x-coordinate of the
first key in the list that differs by byte comparison from `pubkeys[0]`
(the first 32 bytes of that key's 64-byte object), and the zero sentinel
when every key equals `pubkeys[0]`; the result is a function of the key
list alone (duplicates permitted). -/
theorem pubkey_agg_second_pk_x
    (msm : List Nat → Nat → List (List Nat) → Option (Nat × Nat))
    (cache : List Nat) (pk0 : List Nat) (rest : List (List Nat))
    (hvalid : ∀ pk ∈ pk0 :: rest, pk ≠ zeros64)
    (hbytes : ∀ pk ∈ pk0 :: rest, ∀ b ∈ pk, b < 256) :
    bytesToNatBE
        (cacheSecondBytes (secp256k1_musig_pubkey_agg msm cache (pk0 :: rest)).2.2) =
      (match rest.find? fun pk => pk != pk0 with
       | none => 0
       | some pk => bytesToNatBE (pk.take 32)) := by
  obtain ⟨ser, hser⟩ : ∃ ser, serializeAll (pk0 :: rest) = some ser := by
    have := (serializeAll_isSome_iff (pk0 :: rest)).mpr hvalid
    exact Option.isSome_iff_exists.mp this
  unfold secp256k1_musig_pubkey_agg
  dsimp only
  split
  · exact agg_finish_second_slice _ _ _ _ _ hser (by decide)
  · next pk heq =>
    have hmem : pk ∈ pk0 :: rest := List.mem_cons_of_mem pk0 (List.mem_of_find?_eq_some heq)
    have hload : secp256k1_xonly_pubkey_load pk = some (secp256k1_point_load pk) := by
      unfold secp256k1_xonly_pubkey_load
      rw [if_neg (hvalid pk hmem)]
    rw [hload]
    dsimp only
    have hlt : bytesToNatBE (pk.take 32) < 256 ^ 32 := by
      calc bytesToNatBE (pk.take 32) < 256 ^ (pk.take 32).length :=
            bytesToNatBE_lt _ fun b hb => hbytes pk hmem b (List.mem_of_mem_take hb)
      _ ≤ 256 ^ 32 := Nat.pow_le_pow_right (by norm_num) (by simp [List.length_take])
    exact agg_finish_second_slice _ _ _ _ _ hser hlt

/-- C4 witness: two concrete distinct keys; the cache's second-key field
is the x-coordinate (first 32 bytes) of the second key. -/
theorem pubkey_agg_second_pk_x_witness :
    bytesToNatBE
        (cacheSecondBytes
          (secp256k1_musig_pubkey_agg (fun _ _ _ => none) []
            [List.replicate 64 1, 2 :: List.replicate 63 1]).2.2) =
      bytesToNatBE ((2 :: List.replicate 63 1).take 32) :=
  (pubkey_agg_second_pk_x (fun _ _ _ => none) [] (List.replicate 64 1)
      [2 :: List.replicate 63 1] (by decide) (by decide)).trans (by decide)

theorem keyagglist_midstate_core (M : List Nat) :
    sha256Core secp256k1_musig_keyagglist_sha256.1 secp256k1_musig_keyagglist_sha256.2 M =
      sha256Core sha256IV 0 (sha256 keyagglistTag ++ sha256 keyagglistTag ++ M) := by
  have hT : sha256 keyagglistTag = keyagglistTagHash := by decide
  rw [hT]
  have h32 : (keyagglistTagHash).length = 32 := rfl
  have hlen : (keyagglistTagHash ++ keyagglistTagHash ++ M).length = 64 + M.length := by
    rw [List.length_append, List.length_append, h32]
  have hbase : secp256k1_musig_keyagglist_sha256.2 = 64 := rfl
  unfold sha256Core
  rw [hlen, hbase, Nat.zero_add]
  simp only [keyagglistTagHash, List.append_assoc, List.cons_append, List.nil_append]
  simp only [bytesToWords, wordsToBlocks, List.foldl_cons]
  congr 1

theorem keyaggcoef_midstate_core (M : List Nat) :
    sha256Core secp256k1_musig_keyaggcoef_sha256.1 secp256k1_musig_keyaggcoef_sha256.2 M =
      sha256Core sha256IV 0 (sha256 keyaggcoefTag ++ sha256 keyaggcoefTag ++ M) := by
  have hT : sha256 keyaggcoefTag = keyaggcoefTagHash := by decide
  rw [hT]
  have h32 : (keyaggcoefTagHash).length = 32 := rfl
  have hlen : (keyaggcoefTagHash ++ keyaggcoefTagHash ++ M).length = 64 + M.length := by
    rw [List.length_append, List.length_append, h32]
  have hbase : secp256k1_musig_keyaggcoef_sha256.2 = 64 := rfl
  unfold sha256Core
  rw [hlen, hbase, Nat.zero_add]
  simp only [keyaggcoefTagHash, List.append_assoc, List.cons_append, List.nil_append]
  simp only [bytesToWords, wordsToBlocks, List.foldl_cons]
  congr 1

theorem jacobiSym_seven_secpP : jacobiSym 7 secpP = -1 := by
  norm_num [secpP]

theorem onCurve_x_ne_zero (x y : Nat) (h : onCurve x y) : x ≠ 0 := by
  rintro rfl
  obtain ⟨-, -, hcurve⟩ := h
  have h7 : y * y % secpP = 7 % secpP := by
    rw [hcurve]
    norm_num
  have hmod : ((y * y : Nat) : ZMod secpP) = ((7 : Nat) : ZMod secpP) :=
    (ZMod.natCast_eq_natCast_iff _ _ _).mpr h7
  have hsq : IsSquare ((7 : ℤ) : ZMod secpP) := by
    refine ⟨(y : ZMod secpP), ?_⟩
    push_cast at hmod ⊢
    rw [← hmod]
  exact ZMod.nonsquare_of_jacobiSym_eq_neg_one jacobiSym_seven_secpP hsq

/-- C3: the key-aggregation coefficient is 1 when `x` equals
`second_pk_x` and otherwise the tagged hash
`SHA256(SHA256("KeyAgg coefficient") || SHA256("KeyAgg coefficient") || pk_hash || x)`
reduced modulo the group order; no curve point has x-coordinate 0, so
with the zero sentinel (every key equal to the first) the coefficient of
an on-curve key is always computed by the hash branch, never by the
constant-1 branch. -/
theorem keyaggcoef_internal_spec (pkHash : List Nat) (x secondPkX y : Nat) :
    (x = secondPkX → secp256k1_musig_keyaggcoef_internal pkHash x secondPkX = 1) ∧
    (x ≠ secondPkX →
      secp256k1_musig_keyaggcoef_internal pkHash x secondPkX =
        bytesToNatBE (sha256TaggedHash keyaggcoefTag (pkHash ++ natToBytesBE 32 x)) % secpN) ∧
    (onCurve x y → x ≠ 0) ∧
    (onCurve x y → secondPkX = 0 →
      secp256k1_musig_keyaggcoef_internal pkHash x secondPkX =
        bytesToNatBE (sha256TaggedHash keyaggcoefTag (pkHash ++ natToBytesBE 32 x)) % secpN) := by
  have hhash : ∀ hne : x ≠ secondPkX,
      secp256k1_musig_keyaggcoef_internal pkHash x secondPkX =
        bytesToNatBE (sha256TaggedHash keyaggcoefTag (pkHash ++ natToBytesBE 32 x)) % secpN := by
    intro hne
    unfold secp256k1_musig_keyaggcoef_internal
    rw [if_neg hne]
    have hS :
        stateToBytes
            (sha256Core secp256k1_musig_keyaggcoef_sha256.1
              secp256k1_musig_keyaggcoef_sha256.2 (pkHash ++ natToBytesBE 32 x)) =
          sha256TaggedHash keyaggcoefTag (pkHash ++ natToBytesBE 32 x) := by
      rw [keyaggcoef_midstate_core]
      rfl
    unfold secp256k1_scalar_set_b32
    rw [hS]
  refine ⟨fun he => ?_, hhash, onCurve_x_ne_zero x y, fun hc h0 => ?_⟩
  · unfold secp256k1_musig_keyaggcoef_internal
    rw [if_pos he]
  · exact hhash fun hx => onCurve_x_ne_zero x y hc (hx.trans h0)

/-- C3 witness: at the generator's coordinates (on the curve): equal
inputs give coefficient 1; the x-coordinate is nonzero; with the zero
sentinel the hash branch is taken. -/
theorem keyaggcoef_internal_spec_witness :
    secp256k1_musig_keyaggcoef_internal (List.replicate 32 0)
        55066263022277343669578718895168534326250603453777594175500187360389116729240
        55066263022277343669578718895168534326250603453777594175500187360389116729240 = 1 ∧
      (55066263022277343669578718895168534326250603453777594175500187360389116729240 : Nat) ≠ 0 ∧
      secp256k1_musig_keyaggcoef_internal (List.replicate 32 0)
          55066263022277343669578718895168534326250603453777594175500187360389116729240 0 =
        bytesToNatBE
            (sha256TaggedHash keyaggcoefTag
              (List.replicate 32 0 ++
                natToBytesBE 32
                  55066263022277343669578718895168534326250603453777594175500187360389116729240)) %
          secpN :=
  ⟨(keyaggcoef_internal_spec (List.replicate 32 0) _ _
      32670510020758816978083085130507043184471273380659243275938904335757337482424).1 rfl,
   (keyaggcoef_internal_spec (List.replicate 32 0) _ 0
      32670510020758816978083085130507043184471273380659243275938904335757337482424).2.2.1
     ⟨by decide, by decide, by decide⟩,
   (keyaggcoef_internal_spec (List.replicate 32 0) _ 0
      32670510020758816978083085130507043184471273380659243275938904335757337482424).2.2.2
     ⟨by decide, by decide, by decide⟩ rfl⟩

/-- C6: initializing SHA-256 from the fixed midstates of
`secp256k1_musig_keyagglist_sha256` / `secp256k1_musig_keyaggcoef_sha256`
(with the byte counter set to 64) and hashing any message gives the same
digest as the plain tagged-hash definition
`SHA256(SHA256(tag) || SHA256(tag) || message)` for the tags
"KeyAgg list" and "KeyAgg coefficient" respectively. -/
theorem musig_fixed_midstates_eq_tagged_hash (M : List Nat) :
    stateToBytes
        (sha256Core secp256k1_musig_keyagglist_sha256.1
          secp256k1_musig_keyagglist_sha256.2 M) =
      sha256TaggedHash keyagglistTag M ∧
    stateToBytes
        (sha256Core secp256k1_musig_keyaggcoef_sha256.1
          secp256k1_musig_keyaggcoef_sha256.2 M) =
      sha256TaggedHash keyaggcoefTag M := by
  constructor
  · rw [keyagglist_midstate_core M]
    rfl
  · rw [keyaggcoef_midstate_core M]
    rfl

/-- C10 witness: concrete failing calls of all three operations (empty
key list, corrupt magic, corrupt magic) leave the all-zero output. -/
theorem out_pubkey_zeroed_on_failure_witness :
    (secp256k1_musig_pubkey_agg (fun _ _ _ => none) [] []).2.1 = zeros64 ∧
      (secp256k1_musig_pubkey_get []).2.2 = zeros64 ∧
      (secp256k1_musig_pubkey_tweak_add (fun _ _ => none) [] []).2.2 = zeros64 :=
  out_pubkey_zeroed_on_failure (fun _ _ _ => none) (fun _ _ => none) [] [] [] [] []
    (by decide) (by decide) (by decide)

theorem nsmul_mod_secpN {Point : Type} [AddCommGroup Point] (G : Point)
    (hG : secpN • G = 0) (k : Nat) : (k % secpN) • G = k • G := by
  have h2 : (secpN * (k / secpN)) • G = 0 := by
    rw [mul_nsmul, hG, smul_zero]
  calc (k % secpN) • G = (k % secpN) • G + (secpN * (k / secpN)) • G := by
        rw [h2, add_zero]
  _ = (k % secpN + secpN * (k / secpN)) • G := (add_nsmul G _ _).symm
  _ = k • G := by rw [Nat.mod_add_div]

theorem val_add_nsmul {Point : Type} [AddCommGroup Point] (G : Point)
    (hG : secpN • G = 0) (a b : ZMod secpN) :
    (a + b).val • G = a.val • G + b.val • G := by
  rw [ZMod.val_add, nsmul_mod_secpN G hG, add_nsmul]

theorem val_neg_nsmul {Point : Type} [AddCommGroup Point] (G : Point)
    (hG : secpN • G = 0) (a : ZMod secpN) :
    (-a).val • G = -(a.val • G) := by
  have h := val_add_nsmul G hG (-a) a
  rw [neg_add_cancel, ZMod.val_zero, zero_nsmul] at h
  exact eq_neg_of_add_eq_zero_left h.symm

theorem tweakAddI_invariant {Point : Type} [AddCommGroup Point] [DecidableEq Point]
    (G P0 : Point) (isOddY : Point → Bool) (hG : secpN • G = 0)
    (t : ZMod secpN) (st st' : KeyaggStateI Point)
    (hst : st.pk = (cond st.parity (-P0) P0) + st.tweak.val • G)
    (h : tweakAddI G isOddY st t = some st') :
    st'.pk = (cond st'.parity (-P0) P0) + st'.tweak.val • G := by
  unfold tweakAddI at h
  dsimp only at h
  by_cases hodd : isOddY st.pk
  · rw [if_pos hodd] at h
    dsimp only at h
    split at h
    · exact absurd h (by simp)
    · injection h with h
      subst h
      dsimp only
      rw [hst, val_add_nsmul G hG, val_neg_nsmul G hG]
      cases hb : st.parity <;> simp only [hb, Bool.not_true, Bool.not_false, cond] <;> abel
  · rw [if_neg hodd] at h
    split at h
    · exact absurd h (by simp)
    · injection h with h
      subst h
      dsimp only
      rw [hst, val_add_nsmul G hG]
      abel

theorem tweakChainI_invariant {Point : Type} [AddCommGroup Point] [DecidableEq Point]
    (G P0 : Point) (isOddY : Point → Bool) (hG : secpN • G = 0)
    (ts : List (ZMod secpN)) (st st' : KeyaggStateI Point)
    (hst : st.pk = (cond st.parity (-P0) P0) + st.tweak.val • G)
    (hchain : tweakChainI G isOddY st ts = some st') :
    st'.pk = (cond st'.parity (-P0) P0) + st'.tweak.val • G := by
  induction ts generalizing st with
  | nil =>
    unfold tweakChainI at hchain
    injection hchain with h
    subst h
    exact hst
  | cons t ts ih =>
    unfold tweakChainI at hchain
    cases htw : tweakAddI G isOddY st t with
    | none => rw [htw] at hchain; exact absurd hchain (by simp)
    | some st1 =>
      rw [htw] at hchain
      exact ih st1 (tweakAddI_invariant G P0 isOddY hG t st st1 hst htw) hchain

/-- C2: over any model of the external point-group collaborator (an
additive commutative group in which the generator is killed by the group
order) and any y-parity test, a cache freshly written by
`secp256k1_musig_pubkey_agg` (aggregate point `P0`, parity 0, tweak 0)
followed by any finite sequence of successful
`secp256k1_musig_pubkey_tweak_add` calls yields, when read by
`secp256k1_musig_pubkey_get`, exactly the internal aggregate key under
the even-y convention — `P0` negated iff the recorded
`internal_key_parity` is set — plus the accumulated tweak scalar (the
sum of the tweaks with the negation rules applied, as recorded in the
cache) times the generator, including sequences during which the cached
point crosses an even/odd-y flip. -/
theorem tweak_chain_pubkey_get (Point : Type) [AddCommGroup Point] [DecidableEq Point]
    (G P0 : Point) (isOddY : Point → Bool) (hG : secpN • G = 0)
    (ts : List (ZMod secpN)) (st' : KeyaggStateI Point)
    (hchain : tweakChainI G isOddY (aggStateI P0) ts = some st') :
    pubkeyGetI st' = (cond st'.parity (-P0) P0) + st'.tweak.val • G := by
  have base : (aggStateI P0).pk =
      (cond (aggStateI P0).parity (-P0) P0) + (aggStateI P0).tweak.val • G := by
    dsimp [aggStateI]
    rw [ZMod.val_zero, zero_nsmul, add_zero]
  exact tweakChainI_invariant G P0 isOddY hG ts _ st' base hchain

/-- C2 witness: in the concrete group `ZMod secpN` with generator 1 and
initial aggregate 2, the successful tweak 3 yields cached point 5, which
equals the parity-signed internal key plus the accumulated tweak times
the generator. -/
theorem tweak_chain_pubkey_get_witness :
    pubkeyGetI (⟨5, false, 3⟩ : KeyaggStateI (ZMod secpN)) =
      (cond false (-(2 : ZMod secpN)) 2) + (3 : ZMod secpN).val • (1 : ZMod secpN) :=
  tweak_chain_pubkey_get (ZMod secpN) 1 2 (fun v => decide (v.val % 2 = 1))
    (by rw [nsmul_eq_mul, ZMod.natCast_self, zero_mul]) [3] ⟨5, false, 3⟩ (by decide)
